import Mathlib

/-
Verification of the schema-extraction core of romshark/valfile (main.go).

The development shallowly embeds the pure core of `main.go`:
  * the Go type-expression shapes traversed by `traverseTypeIdents`,
  * the package index and `findType` lookup,
  * the closure walk performed by `run` (its callback inlined),
  * `isTypePrimitive`, `sortedKeys`, `checkMarshalingTags` (with a model of
    the external `github.com/fatih/structtag` parser),
  * `parsePackage`'s outcome structure (including its panic),
  * the tail of `run` that interprets the combined output of the
    synthesized program, and
  * `unzipArchive`'s path handling (`filepath.Join`/`filepath.Clean`
    modelled lexically, as in Go).

Recursion in `traverseTypeIdents` is modelled with an explicit fuel
parameter standing for the call stack: a result of `none` means the Go
recursion has not returned within the given depth, and `none` for every
fuel means the recursion does not terminate.
-/

namespace Valfile

/-- Shape of a Go type expression, exactly the cases distinguished by the
`switch` in `traverseTypeIdents` (main.go): a bare identifier, a struct
(whose fields are (names, type, tag-content) triples mirroring `ast.Field`,
the tag being the unquoted content of the tag literal, `none` when the
field carries no tag), an array/slice, a map, a channel-or-function type
(not traversed), and any other expression kind (the switch has no default
case, so those are not traversed either). -/
inductive GoExpr : Type where
  | ident (name : String)
  | structT (fields : List (List String × GoExpr × Option String))
  | array (elt : GoExpr)
  | mapT (key value : GoExpr)
  | chanOrFunc
  | otherExpr

/-- A struct field: declared names, type expression, optional tag content. -/
abbrev GoField := List String × GoExpr × Option String

/-- A top-level type declaration (`ast.TypeSpec`): its name and its type
expression. -/
structure TypeDecl where
  name : String
  type : GoExpr

/-- A parsed package (`ast.Package`): name and indexed top-level type
declarations.  `pkg.Files` and `file.Scope.Objects` are flattened into one
list; top-level names are unique per package (Go scopes are maps keyed by
name), so `findType`'s result does not depend on iteration order. -/
structure Pkg where
  name : String
  decls : List TypeDecl

/-- `findType` (main.go): look a type name up in the package index,
returning the declaration regardless of its shape. -/
def findType (decls : List TypeDecl) (typeName : String) : Option TypeDecl :=
  decls.find? (fun d => d.name == typeName)

/-- `isTypePrimitive` (main.go): the fixed set of builtin scalar type
names skipped by the closure walk. -/
def isTypePrimitive (typeName : String) : Bool :=
  match typeName with
  | "string" | "bool" | "byte" | "rune" | "uintptr"
  | "int" | "int8" | "int16" | "int32" | "int64"
  | "uint" | "uint8" | "uint16" | "uint32" | "uint64"
  | "float32" | "float64" | "complex64" | "complex128" => true
  | _ => false

/-- The mutable state of `run`'s closure walk: the `typeSpecs` map (here
the list of its entries in insertion order; only key membership and the
entries matter), the ordered `typeDefinitions` list (the code stores each
declaration's rendered text, whose identity is the declaration's name, so
the model stores the names), and the accumulated error list `errs`. -/
structure WalkSt where
  typeSpecs : List TypeDecl
  typeDefinitions : List String
  errs : List String

/-- The callback `run` passes to `traverseTypeIdents` (main.go): skip
primitives, record an error for unresolvable identifiers (returning
`stop = true`), skip already-visited types, and otherwise render and
append the newly discovered declaration.  `renderGoType` is a
pretty-printer over the already-parsed tree and cannot fail on
parser-produced input, so its error branch is not modelled. -/
def walkCallback (pkg : Pkg) (name : String) (st : WalkSt) : Bool × WalkSt :=
  if isTypePrimitive name then (false, st)
  else
    match findType pkg.decls name with
    | none => (true, { st with errs := st.errs ++ ["undefined type: " ++ name] })
    | some t =>
      if st.typeSpecs.any (fun d => d.name == t.name) then (false, st)
      else (false, { st with
        typeSpecs := st.typeSpecs ++ [t],
        typeDefinitions := st.typeDefinitions ++ [t.name] })

/-- `traverseTypeIdents` (main.go) together with the nested traversal of a
struct's field list, with `run`'s callback inlined.  The task is either a
type expression (`Sum.inl`) or a remaining field list (`Sum.inr`).  The
`fuel` argument models the Go call stack: every recursive call consumes
one unit, `none` means the recursion did not return within `fuel` calls.
In the identifier case the source first invokes the callback, stops if it
returns true, and otherwise re-resolves the identifier and recurses into
the found declaration's type (note: it recurses even when the callback
left the type in the visited set). -/
def trav (pkg : Pkg) : Nat → Sum GoExpr (List GoField) → WalkSt → Option WalkSt
  | 0, _, _ => none
  | fuel+1, .inl e, st =>
    match e with
    | .chanOrFunc => some st
    | .otherExpr => some st
    | .structT fields => trav pkg fuel (.inr fields) st
    | .array elt => trav pkg fuel (.inl elt) st
    | .mapT k v =>
      match trav pkg fuel (.inl k) st with
      | none => none
      | some st1 => trav pkg fuel (.inl v) st1
    | .ident name =>
      let r := walkCallback pkg name st
      if r.1 then some r.2
      else
        match findType pkg.decls name with
        | none => some r.2
        | some x => trav pkg fuel (.inl x.type) r.2
  | _+1, .inr [], st => some st
  | fuel+1, .inr (f :: fs), st =>
    match trav pkg fuel (.inl f.2.1) st with
    | none => none
    | some st1 => trav pkg fuel (.inr fs) st1

/-- The walk state `run` seeds before calling `traverseTypeIdents`: the
root declaration is rendered and appended, and `typeSpecs` is seeded with
the root under the requested type name. -/
def seedState (typeName : String) (rootType : TypeDecl) : WalkSt :=
  { typeSpecs := [rootType], typeDefinitions := [typeName], errs := [] }

/-- `sortedKeys` (main.go): despite its name it only collects the map's
keys by appending them in iteration order and performs no sorting.  The
model receives the keys in the order the Go map iteration yields them. -/
def sortedKeys {K : Type} (m : List K) : List K :=
  m.foldl (fun s k => s ++ [k]) []

/-- Hexadecimal digit value, as accepted by Go's `strconv` unhex. -/
def hexVal (c : Char) : Option Nat :=
  if 48 ≤ c.toNat ∧ c.toNat ≤ 57 then some (c.toNat - 48)
  else if 97 ≤ c.toNat ∧ c.toNat ≤ 102 then some (c.toNat - 87)
  else if 65 ≤ c.toNat ∧ c.toNat ≤ 70 then some (c.toNat - 55)
  else none

/-- Octal digit test. -/
def isOctal (c : Char) : Bool :=
  48 ≤ c.toNat && c.toNat ≤ 55

/-- Valid Unicode scalar value (Go rejects surrogates and values above
`utf8.MaxRune` in `\u`/`\U` escapes). -/
def isValidRune (n : Nat) : Bool :=
  (n < 0xd800) || (0xe000 ≤ n && n ≤ 0x10ffff)

/-- Model of `strconv.Unquote` applied to the double-quoted value scanned
inside `structtag.Parse`, operating on the content between the quotes
(which, by construction of the scan, contains no unescaped `"`).  Returns
`none` on a malformed escape or an embedded newline, as Go does.  Bytes
produced by `\x`/octal escapes are modelled as characters of the same
value. -/
def unquoteChars : List Char → Option (List Char)
  | [] => some []
  | '\\' :: 'x' :: h1 :: h2 :: rest =>
    match hexVal h1, hexVal h2 with
    | some a, some b => (unquoteChars rest).map (fun v => Char.ofNat (16 * a + b) :: v)
    | _, _ => none
  | '\\' :: 'u' :: a :: b :: c :: d :: rest =>
    match hexVal a, hexVal b, hexVal c, hexVal d with
    | some x1, some x2, some x3, some x4 =>
      let n := ((x1 * 16 + x2) * 16 + x3) * 16 + x4
      if isValidRune n then (unquoteChars rest).map (fun v => Char.ofNat n :: v)
      else none
    | _, _, _, _ => none
  | '\\' :: 'U' :: a :: b :: c :: d :: e :: f :: g :: h :: rest =>
    match hexVal a, hexVal b, hexVal c, hexVal d,
          hexVal e, hexVal f, hexVal g, hexVal h with
    | some x1, some x2, some x3, some x4, some x5, some x6, some x7, some x8 =>
      let n := ((((((x1 * 16 + x2) * 16 + x3) * 16 + x4) * 16 + x5) * 16 + x6)
        * 16 + x7) * 16 + x8
      if isValidRune n then (unquoteChars rest).map (fun v => Char.ofNat n :: v)
      else none
    | _, _, _, _, _, _, _, _ => none
  | '\\' :: c :: rest =>
    match c with
    | 'a' => (unquoteChars rest).map (fun v => Char.ofNat 7 :: v)
    | 'b' => (unquoteChars rest).map (fun v => Char.ofNat 8 :: v)
    | 'f' => (unquoteChars rest).map (fun v => Char.ofNat 12 :: v)
    | 'n' => (unquoteChars rest).map (fun v => '\n' :: v)
    | 'r' => (unquoteChars rest).map (fun v => '\r' :: v)
    | 't' => (unquoteChars rest).map (fun v => '\t' :: v)
    | 'v' => (unquoteChars rest).map (fun v => Char.ofNat 11 :: v)
    | '\\' => (unquoteChars rest).map (fun v => '\\' :: v)
    | '"' => (unquoteChars rest).map (fun v => '"' :: v)
    | _ =>
      if isOctal c then
        match rest with
        | o2 :: o3 :: rest2 =>
          if isOctal o2 && isOctal o3 then
            let n := (c.toNat - 48) * 64 + (o2.toNat - 48) * 8 + (o3.toNat - 48)
            if n ≤ 255 then (unquoteChars rest2).map (fun v => Char.ofNat n :: v)
            else none
          else none
        | _ => none
      else none
  | '"' :: _ => none
  | c :: rest =>
    if c = '\n' then none else (unquoteChars rest).map (fun v => c :: v)

/-- The quoted-value scan inside `structtag.Parse`: starting after the
opening quote, scan to the closing quote, a backslash skipping the next
character.  Returns the scanned content and the remainder after the
closing quote, or `none` when the input ends before a closing quote
(Go's `errTagValueSyntax`). -/
def scanQuoted : List Char → Option (List Char × List Char)
  | [] => none
  | '"' :: rest => some ([], rest)
  | '\\' :: c :: rest =>
    (scanQuoted rest).map (fun p => ('\\' :: c :: p.1, p.2))
  | '\\' :: [] => none
  | c :: rest =>
    (scanQuoted rest).map (fun p => (c :: p.1, p.2))

/-- Key-character test of `structtag.Parse`: a key byte is printable,
not a space, colon, quote, or DEL. -/
def isKeyChar (c : Char) : Bool :=
  (32 < c.toNat) && !(c == ':') && !(c == '"') && (c.toNat != 127)

/-- Modelled from the external dependency `github.com/fatih/structtag`
v1.2.0 (`Parse`): the loop scanning one `key:"value"` pair per iteration
(the function's final nil-return branch is in `parseStructTags` below).
Errors carry the library's messages.  Each iteration consumes at least one
character, so the fuel (initialised to the input length plus one) never
runs out; the fuel-exhaustion branch is unreachable.  A pair's recorded
name is the part of the unquoted value before the first comma. -/
def parseTagPairs : Nat → List Char → List (String × String) →
    Except String (List (String × String))
  | 0, _, _ => .error "out of fuel"
  | fuel+1, cs, acc =>
    let cs1 := cs.dropWhile (fun c => c == ' ')
    match cs1 with
    | [] => .ok acc
    | _ :: _ =>
      let key := cs1.takeWhile isKeyChar
      let rest := cs1.dropWhile isKeyChar
      if key.isEmpty then .error "bad syntax for struct tag key"
      else
        match rest with
        | ':' :: '"' :: vrest =>
          match scanQuoted vrest with
          | none => .error "bad syntax for struct tag value"
          | some (content, after) =>
            match unquoteChars content with
            | none => .error "bad syntax for struct tag value"
            | some value =>
              let name := value.takeWhile (fun c => !(c == ','))
              parseTagPairs fuel after
                (acc ++ [(String.mk key, String.mk name)])
        | ':' :: [] => .error "bad syntax for struct tag pair"
        | ':' :: _ :: _ => .error "bad syntax for struct tag value"
        | _ => .error "bad syntax for struct tag pair"

/-- Modelled from the external dependency `github.com/fatih/structtag`
v1.2.0: `Parse` over the whole tag content.  After the scanning loop,
`Parse` ends with `if hasTag && len(tags) == 0 { return nil, nil }`
(where `hasTag := tag != ""`): non-empty content that yields no pairs —
content consisting only of spaces — returns a *nil* `*Tags` with a nil
error, modelled as `.ok none`; every other success returns a non-nil
`*Tags` (`.ok (some pairs)`). -/
def parseStructTags (content : String) : Except String (Option (List (String × String))) :=
  match parseTagPairs (content.toList.length + 1) content.toList [] with
  | .error e => .error e
  | .ok ts => if content ≠ "" ∧ ts = [] then .ok none else .ok (some ts)

/-- `Tags.Get` of `structtag` on a non-nil `Tags`: first pair with the
given key; `none` stands for the library's "tag does not exist" error,
the only error `Get` can produce.  (Calling `Get` on a nil `*Tags`
dereferences the nil pointer and panics; that case is handled at the
call site in `checkFieldTag`.) -/
def tagsGet (tags : List (String × String)) (key : String) : Option String :=
  (tags.find? (fun p => p.1 == key)).map (fun p => p.2)

/-- The Go runtime's message for a nil-pointer dereference panic. -/
def nilDerefMsg : String :=
  "runtime error: invalid memory address or nil pointer dereference"

/-- A conformance violation, as produced by `checkMarshalingTags`
(main.go).  The code formats each as the string
`TypeName.FieldName: message`; the model keeps the triple structured. -/
inductive TagViolation : Type where
  | missingTag (typeName fieldName key : String)
  | parseFailure (typeName fieldName msg : String)
  | emptyTag (typeName fieldName key : String)
deriving DecidableEq

/-- The per-field body of `checkMarshalingTags`'s loop (main.go): each
non-crashing branch appends exactly one violation and continues with the
next field.  The field name is the first declared name, or the identifier
of an embedded field's type, or empty.  A field whose tag is `none`
models `f.Tag == nil || f.Tag.Value == ""`.  (The `strconv.Unquote` step
on `f.Tag.Value` cannot fail on parser-produced literals, so fields carry
the unquoted content directly.)  When `structtag.Parse` returns its nil
`*Tags` with nil error (all-space tag content), the code calls
`tags.Get(expectTag)` on the nil pointer, which panics; the panic is
modelled as `.error` carrying the runtime's nil-dereference message. -/
def checkFieldTag (typeName expectTag : String) (f : GoField) :
    Except String (List TagViolation) :=
  let fieldName :=
    match f.1 with
    | n :: _ => n
    | [] =>
      match f.2.1 with
      | .ident n => n
      | _ => ""
  match f.2.2 with
  | none => .ok [.missingTag typeName fieldName expectTag]
  | some content =>
    match parseStructTags content with
    | .error e => .ok [.parseFailure typeName fieldName e]
    | .ok none => .error nilDerefMsg
    | .ok (some tags) =>
      match tagsGet tags expectTag with
      | none => .ok [.missingTag typeName fieldName expectTag]
      | some name =>
        if name == "" then .ok [.emptyTag typeName fieldName expectTag]
        else .ok []

/-- The field loop of `checkMarshalingTags` (main.go): violations are
appended in declared field order; a panic raised while checking a field
propagates, aborting the loop (and, uncaught, the whole program). -/
def checkFieldsLoop (typeName expectTag : String) :
    List GoField → List TagViolation → Except String (List TagViolation)
  | [], errs => .ok errs
  | f :: fs, errs =>
    match checkFieldTag typeName expectTag f with
    | .error e => .error e
    | .ok v => checkFieldsLoop typeName expectTag fs (errs ++ v)

/-- `checkMarshalingTags` (main.go): non-struct declarations yield no
violations; for a struct, the loop appends each field's violations in
declared order.  An `.error` result models a propagating Go panic. -/
def checkMarshalingTags (t : TypeDecl) (expectTag : String) :
    Except String (List TagViolation) :=
  match t.type with
  | .structT fields => checkFieldsLoop t.name expectTag fields []
  | _ => .ok []

/-- The tag-check loop of `run` (main.go): check every type of the
closure in the order `sortedKeys` yields, concatenating the violations;
a panic raised by a check propagates out of `run`. -/
def tagCheckLoop (expectTag : String) :
    List TypeDecl → List TagViolation → Except String (List TagViolation)
  | [], acc => .ok acc
  | t :: rest, acc =>
    match checkMarshalingTags t expectTag with
    | .error e => .error e
    | .ok v => tagCheckLoop expectTag rest (acc ++ v)

/-- Outcome of a `run` invocation (main.go), up to the phase reached:
a root-type lookup failure, accumulated closure errors, a Go panic
escaping the tag check, accumulated tag violations, or success (all
phases passed; the model treats the external collaborators — input
reading, template execution, workspace writes and the `go run` execution
— as succeeding, since they are outside the core).  `success` carries
the ordered `typeDefinitions` handed to synthesis. -/
inductive RunOutcome : Type where
  | typeNotFound (typeName pkgName : String)
  | closureFailure (errs : List String)
  | panicked (msg : String)
  | tagFailure (errs : List TagViolation)
  | success (typeDefinitions : List String)

/-- The phase structure of `run` (main.go): resolve the root type (absent
root is an immediate error), seed the walk state, run the closure walk,
fail with the accumulated errors if any were recorded (before the
format-specific synthesis, the tag check, and the workspace), otherwise
check marshaling tags over `sortedKeys(typeSpecs)` unless disabled, fail
with the violations if any, and otherwise proceed to synthesis and
execution. -/
def runModel (fuel : Nat) (pkg : Pkg) (typeName expectTag : String)
    (noTagCheck : Bool) : Option RunOutcome :=
  match findType pkg.decls typeName with
  | none => some (.typeNotFound typeName pkg.name)
  | some rootType =>
    match trav pkg fuel (.inl rootType.type) (seedState typeName rootType) with
    | none => none
    | some st =>
      if st.errs.isEmpty then
        if noTagCheck then some (.success st.typeDefinitions)
        else
          match tagCheckLoop expectTag (sortedKeys st.typeSpecs) [] with
          | .error msg => some (.panicked msg)
          | .ok tagErrs =>
            if tagErrs.isEmpty then some (.success st.typeDefinitions)
            else some (.tagFailure tagErrs)
      else some (.closureFailure st.errs)

/-- Result of `parsePackage` (main.go): a parsed package, a returned
parse error, or a Go panic (abnormal termination). -/
inductive ParseOutcome : Type where
  | ok (pkg : Pkg)
  | parseError (msg : String)
  | panicked (msg : String)
deriving Inhabited

/-- `parsePackage` (main.go) over the result of `parser.ParseDir`
(either a syntax-error message or the list of parsed packages found in
the directory): a parse failure is wrapped and returned as an error;
any number of packages other than exactly one triggers
`panic(fmt.Errorf("expected 1 package, received: %d", len(pkgs)))`. -/
def parsePackageModel (parsed : Except String (List Pkg)) : ParseOutcome :=
  match parsed with
  | .error e => .parseError ("parsing package: " ++ e)
  | .ok [p] => .ok p
  | .ok other => .panicked ("expected 1 package, received: " ++ toString other.length)

/-- `bytes.TrimRight(output, "\n")` (main.go): remove all trailing
newline characters.  The combined output is modelled as its character
list. -/
def trimNewlinesRight (l : List Char) : List Char :=
  (l.reverse.dropWhile (fun c => c == '\n')).reverse

/-- The marker `StdoutErrPrefix = "VALFILE: "` (main.go) as a character
list. -/
def errMarker : List Char := "VALFILE: ".toList

/-- Classification of an execution by the tail of `run` (main.go,
after `cmd.CombinedOutput()`): the command's error (if any), a structured
validation error carrying the output with the marker stripped, or
success. -/
inductive ExecResult : Type where
  | execFailure (err : String)
  | validationFailure (msg : List Char)
  | success
deriving DecidableEq

/-- The tail of `run` (main.go): `cmd.CombinedOutput()` yields an optional
error (non-nil exactly when `go run` failed to start or exited non-zero)
and the combined output bytes.  A non-nil error is returned as-is; on a
nil error the output is right-trimmed of newlines, a marker-prefixed
remainder is returned as a structured error with the marker stripped, and
anything else yields no errors. -/
def interpretRunOutput (cmdErr : Option String) (output : List Char) : ExecResult :=
  match cmdErr with
  | some e => .execFailure e
  | none =>
    let out := trimNewlinesRight output
    if errMarker.isPrefixOf out then .validationFailure (out.drop errMarker.length)
    else .success

/-- Split a path into components at `/` separators (like Go's lexical
path handling; an empty path yields one empty component). -/
def splitSlash : List Char → List (List Char)
  | [] => [[]]
  | c :: rest =>
    if c = '/' then [] :: splitSlash rest
    else
      match splitSlash rest with
      | comp :: comps => (c :: comp) :: comps
      | [] => [[c]]

/-- The core of `filepath.Clean`'s lexical processing: fold the raw
components, dropping empty and `.` components, resolving `..` against
the output stack (at the root of an absolute path a `..` is dropped; in
a relative path an unmatched `..` is kept).  `acc` is the reversed output
stack. -/
def cleanComps (abs : Bool) : List (List Char) → List (List Char) → List (List Char)
  | [], acc => acc.reverse
  | c :: rest, acc =>
    if c = [] ∨ c = ['.'] then cleanComps abs rest acc
    else if c = ['.', '.'] then
      match acc with
      | [] => if abs then cleanComps abs rest [] else cleanComps abs rest [['.', '.']]
      | top :: accRest =>
        if top = ['.', '.'] then cleanComps abs rest (['.', '.'] :: acc)
        else cleanComps abs rest accRest
    else cleanComps abs rest (c :: acc)

/-- Join components with `/`. -/
def joinComps : List (List Char) → List Char
  | [] => []
  | [c] => c
  | c :: rest => c ++ '/' :: joinComps rest

/-- `filepath.Clean` (Go, Unix paths), modelled lexically on character
lists: resolve `.`, `..` and duplicate separators; an absolute path stays
absolute; an empty relative result is `.`. -/
def goClean (p : List Char) : List Char :=
  let abs : Bool := match p with | '/' :: _ => true | _ => false
  let cs := cleanComps abs (splitSlash p) []
  if abs then '/' :: joinComps cs
  else if cs.isEmpty then ['.'] else joinComps cs

/-- `filepath.Join` of two elements (Go): empty elements are skipped and
the result of joining the non-empty ones with `/` is cleaned; all-empty
input yields the empty path. -/
def goJoin (a b : List Char) : List Char :=
  match a, b with
  | [], [] => []
  | [], b => goClean b
  | a, [] => goClean a
  | a, b => goClean (a ++ '/' :: b)

/-- `unzipArchive` (main.go), path handling: walk the archive's entry
names in order; entries ending in `/` are skipped; for every other entry
the destination path is `filepath.Join(dst, name)`, the ZipSlip guard
rejects it with an "illegal file path" error (aborting the loop) unless
`filepath.Clean(dst) + "/"` is a string prefix of it, and an accepted
entry's file is created at the destination path.  The model returns the
ordered list of paths written before success or abort, with the error
message if aborted; the filesystem collaborators (`MkdirAll`, `Create`,
`io.Copy`) are modelled as succeeding. -/
def unzipArchiveModel (dst : List Char) :
    List (List Char) → List (List Char) → List (List Char) × Option String
  | [], written => (written.reverse, none)
  | name :: rest, written =>
    if name.getLast? = some '/' then unzipArchiveModel dst rest written
    else
      let destPath := goJoin dst name
      if (goClean dst ++ ['/']).isPrefixOf destPath then
        unzipArchiveModel dst rest (destPath :: written)
      else (written.reverse, some ("illegal file path: " ++ String.mk destPath))

/-- Declaration `type A struct { B B }` of the cyclic example. -/
def declA : TypeDecl := ⟨"A", .structT [(["B"], .ident "B", none)]⟩

/-- Declaration `type B struct { A A }` of the cyclic example. -/
def declB : TypeDecl := ⟨"B", .structT [(["A"], .ident "A", none)]⟩

/-- A package with the two-type cycle `A → B → A`. -/
def cycPkg : Pkg := ⟨"main", [declA, declB]⟩

/-- The walk state after both `A` and `B` have been visited. -/
def stAB : WalkSt := ⟨[declA, declB], ["A", "B"], []⟩

/-- Root declaration referencing the declared type `Good` and the
undeclared types `Missing` and `Missing2` (in field order: first an
unresolvable branch, then a resolvable one, then another unresolvable
one). -/
def undefRootDecl : TypeDecl :=
  ⟨"Config", .structT
    [(["A"], .ident "Missing", none),
     (["B"], .ident "Good", none),
     (["C"], .ident "Missing2", none)]⟩

/-- A resolvable referenced type with an untagged field. -/
def goodDecl : TypeDecl := ⟨"Good", .structT [(["X"], .ident "string", none)]⟩

/-- A package with one resolvable and two unresolvable branches. -/
def pkgUndef : Pkg := ⟨"main", [undefRootDecl, goodDecl]⟩

/-- A package whose root `A` is declared as an alias of `int`
(a non-struct declaration). -/
def aliasPkg : Pkg := ⟨"main", [⟨"A", .ident "int"⟩]⟩

/-- The declaration `type Config struct { Foo string }` with tag
`json:"foo"`. -/
def simpleDecl : TypeDecl :=
  ⟨"Config", .structT [(["Foo"], .ident "string", some "json:\"foo\"")]⟩

/-- A package with the single root `Config`. -/
def pkgSimple : Pkg := ⟨"main", [simpleDecl]⟩

/-- When the root resolves and the walk runs out of stack (models the Go
recursion not returning), `run` produces nothing. -/
theorem runModel_of_trav_none {fuel : Nat} {pkg : Pkg} {tn tag : String}
    {ntc : Bool} {root : TypeDecl}
    (h1 : findType pkg.decls tn = some root)
    (h2 : trav pkg fuel (.inl root.type) (seedState tn root) = none) :
    runModel fuel pkg tn tag ntc = none := by
  simp only [runModel, h1, h2]

/-- When the walk completes having recorded errors, `run` returns exactly
those errors. -/
theorem runModel_of_walk_errs {fuel : Nat} {pkg : Pkg} {tn tag : String}
    {ntc : Bool} {root : TypeDecl} {st : WalkSt}
    (h1 : findType pkg.decls tn = some root)
    (h2 : trav pkg fuel (.inl root.type) (seedState tn root) = some st)
    (h3 : st.errs ≠ []) :
    runModel fuel pkg tn tag ntc = some (.closureFailure st.errs) := by
  simp only [runModel, h1, h2]
  rw [if_neg]
  simp [List.isEmpty_iff, h3]

/-- On the cyclic package, traversing either declaration's struct type
from the state in which both `A` and `B` are already visited never
returns, for any stack depth: the callback reports "already visited"
without stopping, so the traversal re-enters the cycle. -/
theorem trav_cycle_struct : ∀ m : Nat,
    trav cycPkg m (.inl declA.type) stAB = none ∧
    trav cycPkg m (.inl declB.type) stAB = none := by
  intro m
  induction m using Nat.strong_induction_on with
  | _ m ih =>
    rcases m with _ | _ | _ | l
    · exact ⟨rfl, rfl⟩
    · exact ⟨rfl, rfl⟩
    · exact ⟨rfl, rfl⟩
    · refine ⟨?_, ?_⟩
      · have hB := (ih l (by omega)).2
        calc trav cycPkg (l+3) (.inl declA.type) stAB
            = (match trav cycPkg l (.inl declB.type) stAB with
               | none => none
               | some st1 => trav cycPkg (l+1) (.inr []) st1) := rfl
          _ = none := by rw [hB]
      · have hA := (ih l (by omega)).1
        calc trav cycPkg (l+3) (.inl declB.type) stAB
            = (match trav cycPkg l (.inl declA.type) stAB with
               | none => none
               | some st1 => trav cycPkg (l+1) (.inr []) st1) := rfl
          _ = none := by rw [hA]

/-- The closure walk `run` starts on the cyclic package never returns,
for any stack depth. -/
theorem trav_cycle_root : ∀ fuel : Nat,
    trav cycPkg fuel (.inl declA.type) (seedState "A" declA) = none := by
  intro fuel
  rcases fuel with _ | _ | _ | l
  · rfl
  · rfl
  · rfl
  · calc trav cycPkg (l+3) (.inl declA.type) (seedState "A" declA)
        = (match trav cycPkg l (.inl declB.type) stAB with
           | none => none
           | some st1 => trav cycPkg (l+1) (.inr []) st1) := rfl
      _ = none := by rw [(trav_cycle_struct l).2]

/-- C1: the claim states that on a cyclic type graph (`type A struct
{ B B }; type B struct { A A }`) the closure walk of `run` terminates
with each type appearing exactly once.  The code does the opposite: the
callback returns `stop = false` for an already-visited type, so
`traverseTypeIdents` re-enters the cycle and the recursion never returns
(for every call-stack depth the modelled walk fails to complete), so no
list of rendered definitions is ever produced. -/
theorem C1_cyclic_walk_never_terminates :
    ∀ (fuel : Nat) (expectTag : String) (noTagCheck : Bool),
      runModel fuel cycPkg "A" expectTag noTagCheck = none := by
  intro fuel expectTag noTagCheck
  exact runModel_of_trav_none rfl (trav_cycle_root fuel)

/-- C2 counterexample: an execution outcome whose command error is nil and
whose combined output is non-empty and does not begin with the marker is
classified as success by the tail of `run`, not as a distinct execution
failure. -/
theorem C2_counterexample_nonmarker_output_is_success :
    interpretRunOutput none ("garbage".toList) = .success := by rfl

/-- C2 amended: `run` keys the execution-failure condition on the
command's error, not on the output shape.  A non-nil command error is
returned as the (distinct) execution failure regardless of output; with a
nil command error, empty output (after trimming trailing newlines) is
success, marker-prefixed output is returned as a structured error with
the marker stripped, and non-empty output without the marker is treated
as success. -/
theorem C2_amended_interpretation :
    (∀ (e : String) (out : List Char),
      interpretRunOutput (some e) out = .execFailure e) ∧
    interpretRunOutput none [] = .success ∧
    interpretRunOutput none ("VALFILE: boom\n".toList) =
      .validationFailure ("boom".toList) ∧
    interpretRunOutput none ("garbage\n".toList) = .success :=
  ⟨fun _ _ => rfl, rfl, rfl, rfl⟩

/-- C3: whenever the closure walk completes having recorded
unresolved-identifier errors, `run` returns exactly those accumulated
errors and reaches neither the tag check, nor the workspace, nor
synthesis; and on the concrete package with branches
`Missing` (unresolvable), `Good` (resolvable), `Missing2` (unresolvable)
the walk records one error per unresolved identifier while still visiting
`Good`, and `run` fails with both errors (not with `Good`'s missing-tag
violation, which the tag check would have reported had it run). -/
theorem C3_closure_errors_abort_before_synthesis :
    (∀ (fuel : Nat) (pkg : Pkg) (tn tag : String) (ntc : Bool)
       (root : TypeDecl) (st : WalkSt),
      findType pkg.decls tn = some root →
      trav pkg fuel (.inl root.type) (seedState tn root) = some st →
      st.errs ≠ [] →
      runModel fuel pkg tn tag ntc = some (.closureFailure st.errs)) ∧
    trav pkgUndef 9 (.inl undefRootDecl.type) (seedState "Config" undefRootDecl) =
      some ⟨[undefRootDecl, goodDecl], ["Config", "Good"],
        ["undefined type: Missing", "undefined type: Missing2"]⟩ ∧
    runModel 9 pkgUndef "Config" "json" false =
      some (.closureFailure
        ["undefined type: Missing", "undefined type: Missing2"]) := by
  refine ⟨?_, rfl, rfl⟩
  intro fuel pkg tn tag ntc root st h1 h2 h3
  exact runModel_of_walk_errs h1 h2 h3

/-- C3 witness: the general part applied to the concrete package. -/
theorem C3_witness :
    runModel 9 pkgUndef "Config" "json" false =
      some (.closureFailure
        ["undefined type: Missing", "undefined type: Missing2"]) :=
  C3_closure_errors_abort_before_synthesis.1 9 pkgUndef "Config" "json" false
    undefRootDecl
    ⟨[undefRootDecl, goodDecl], ["Config", "Good"],
      ["undefined type: Missing", "undefined type: Missing2"]⟩
    rfl rfl (by simp)

/-- Folding list-append over a function equals flat-mapping it. -/
theorem foldl_append_eq_flatMap {α β : Type} (f : α → List β) :
    ∀ (l : List α) (acc : List β),
      l.foldl (fun es t => es ++ f t) acc = acc ++ l.flatMap f := by
  intro l
  induction l with
  | nil => intro acc; simp
  | cons x xs ih => intro acc; simp [ih]

/-- The one-field package whose field is tagged with a single space. -/
def spaceTagDecl : TypeDecl :=
  ⟨"Config", .structT [(["Foo"], .ident "string", some " ")]⟩

/-- Package wrapping `spaceTagDecl`. -/
def spaceTagPkg : Pkg := ⟨"main", [spaceTagDecl]⟩

/-- C4: the claim promises exactly one classified violation per offending
field, but a field whose tag content consists only of spaces crashes the
checker instead: `structtag.Parse` returns a nil `Tags` with nil error
for non-empty all-space content, `checkMarshalingTags` calls `Get` on
the nil pointer, and the resulting nil-dereference panic propagates out
of `run`.  On every other input the classification behaves as claimed:
no tag at all, an unparsable tag, a parsed set lacking the key, and a
present key with an empty name each yield exactly one violation of the
corresponding kind, a well-tagged field yields none, and a struct with
three untagged fields yields exactly three violations, all collected. -/
theorem C4_whitespace_tag_panics :
    parseStructTags " " = .ok none ∧
    checkFieldTag "Config" "json" (["Foo"], .ident "string", some " ") =
      .error nilDerefMsg ∧
    checkMarshalingTags spaceTagDecl "json" = .error nilDerefMsg ∧
    runModel 9 spaceTagPkg "Config" "json" false =
      some (.panicked nilDerefMsg) ∧
    checkFieldTag "Config" "json" (["Foo"], .ident "string", none) =
      .ok [.missingTag "Config" "Foo" "json"] ∧
    checkFieldTag "Config" "json" (["Foo"], .ident "string", some "json") =
      .ok [.parseFailure "Config" "Foo" "bad syntax for struct tag pair"] ∧
    checkFieldTag "Config" "json" (["Foo"], .ident "string", some "yaml:\"x\"") =
      .ok [.missingTag "Config" "Foo" "json"] ∧
    checkFieldTag "Config" "json" (["Foo"], .ident "string", some "json:\"\"") =
      .ok [.emptyTag "Config" "Foo" "json"] ∧
    checkFieldTag "Config" "json" (["Foo"], .ident "string", some "json:\"foo\"") =
      .ok [] ∧
    (∀ (tn k n : String), checkMarshalingTags ⟨tn, .ident n⟩ k = .ok []) ∧
    checkMarshalingTags ⟨"Config", .structT
      [(["A"], .ident "string", none), (["B"], .ident "string", none),
       (["C"], .ident "string", none)]⟩ "json" =
      .ok [.missingTag "Config" "A" "json", .missingTag "Config" "B" "json",
        .missingTag "Config" "C" "json"] :=
  ⟨rfl, rfl, rfl, rfl, rfl, rfl, rfl, rfl, rfl, fun _ _ _ => rfl, rfl⟩

/-- C5 counterexample: a directory parsing into two packages makes
`parsePackage` panic (abnormal termination), not return a `ParseError`. -/
theorem C5_counterexample_multi_package_panics :
    parsePackageModel (.ok [⟨"a", []⟩, ⟨"b", []⟩]) =
      .panicked "expected 1 package, received: 2" := rfl

/-- C5 amended: a syntactic parse failure is returned to the caller as a
wrapped parse error, and exactly one parsed package is returned as-is,
but any other number of packages (more than one distinct logical unit, or
none) triggers `panic(...)` — an abnormal termination, not a returned
`ParseError`. -/
theorem C5_amended_parse_behavior :
    (∀ e : String,
      parsePackageModel (.error e) = .parseError ("parsing package: " ++ e)) ∧
    (∀ p : Pkg, parsePackageModel (.ok [p]) = .ok p) ∧
    (∀ (p q : Pkg) (rest : List Pkg),
      parsePackageModel (.ok (p :: q :: rest)) =
        .panicked ("expected 1 package, received: " ++ toString (rest.length + 2))) ∧
    parsePackageModel (.ok []) = .panicked "expected 1 package, received: 0" := by
  refine ⟨fun e => rfl, fun p => rfl, ?_, rfl⟩
  intro p q rest
  show ParseOutcome.panicked _ = _
  have h : (p :: q :: rest).length = rest.length + 2 := by simp
  rw [h]

/-- C6 counterexample: on a package whose root `A` is declared as a
non-struct (`type A int`), `run` reports no setup error and proceeds all
the way to synthesis (the modelled outcome is success, with `A` as the
sole synthesized type definition). -/
theorem C6_counterexample_alias_root_proceeds :
    runModel 9 aliasPkg "A" "json" false = some (.success ["A"]) := rfl

/-- C6 amended: `findType` returns the resolved declaration regardless of
its syntactic shape, there is no "unsupported root type shape" error
path, and a non-struct root proceeds to synthesis (the tag checker skips
non-struct declarations rather than reporting them). -/
theorem C6_amended_no_shape_check :
    (∀ (nm : String) (e : GoExpr), findType [⟨nm, e⟩] nm = some ⟨nm, e⟩) ∧
    runModel 9 aliasPkg "A" "json" false = some (.success ["A"]) ∧
    checkMarshalingTags ⟨"A", .ident "int"⟩ "json" = .ok [] := by
  refine ⟨?_, rfl, rfl⟩
  intro nm e
  simp [findType]

/-- `sortedKeys` returns its input unchanged. -/
theorem sortedKeys_eq_self {K : Type} (m : List K) : sortedKeys m = m := by
  unfold sortedKeys
  rw [foldl_append_eq_flatMap (fun k => [k])]
  simp

/-- C7: `sortedKeys`, which feeds the tag-checking loop of `run`,
performs no sorting at all — it returns the map's keys exactly in the
order the Go map iteration yields them, so the order in which the
tag-checking phase processes the closure's types follows Go's randomized
map iteration order rather than a deterministic one.  Two iteration
orders of the same two-key map produce two different processing orders. -/
theorem C7_sortedKeys_performs_no_sorting :
    (∀ {K : Type} (m : List K), sortedKeys m = m) ∧
    sortedKeys ["B", "A"] = ["B", "A"] ∧
    sortedKeys ["B", "A"] ≠ sortedKeys ["A", "B"] := by
  refine ⟨fun m => sortedKeys_eq_self m, rfl, ?_⟩
  rw [sortedKeys_eq_self, sortedKeys_eq_self]
  simp

/-- Invariant of the closure-walk state, relative to the seed name the
walk started from: the rendered-definition list has no duplicate
entries, every entry is backed by an entry of the `typeSpecs` map with
that name, and every entry other than the seed name is non-primitive
(the callback's primitive filter guards referenced identifiers only —
the seed is placed in the list before the walk and never filtered). -/
def WalkInv (seedName : String) (st : WalkSt) : Prop :=
  st.typeDefinitions.Nodup ∧
  (∀ n ∈ st.typeDefinitions, ∃ d ∈ st.typeSpecs, d.name = n) ∧
  (∀ n ∈ st.typeDefinitions, n = seedName ∨ isTypePrimitive n = false)

/-- The walk callback preserves the state invariant: primitives and
visited types leave the state unchanged, unresolved identifiers only
extend `errs`, and a newly discovered type is appended to both the map
and the definition list together (its name being absent from the map,
hence from the definition list, and non-primitive). -/
theorem walkCallback_inv (pkg : Pkg) (seedName name : String) (st : WalkSt)
    (h : WalkInv seedName st) : WalkInv seedName (walkCallback pkg name st).2 := by
  obtain ⟨hnd, hsub, hnp⟩ := h
  unfold walkCallback
  by_cases hp : isTypePrimitive name
  · simpa [hp] using ⟨hnd, hsub, hnp⟩
  · simp only [hp, Bool.false_eq_true, if_false]
    cases hf : findType pkg.decls name with
    | none => exact ⟨hnd, hsub, hnp⟩
    | some t =>
      have htn : t.name = name := by
        have hfs := List.find?_some hf
        simpa using hfs
      by_cases hc : st.typeSpecs.any (fun d => d.name == t.name)
      · simpa [hc] using ⟨hnd, hsub, hnp⟩
      · simp only [hc, Bool.false_eq_true, if_false]
        have hnot : ∀ d ∈ st.typeSpecs, d.name ≠ t.name := by
          intro d hd heq
          exact hc (List.any_eq_true.2 ⟨d, hd, by simp [heq]⟩)

        have hmem : t.name ∉ st.typeDefinitions := by
          intro hmem
          obtain ⟨d, hd, hdn⟩ := hsub t.name hmem
          exact hnot d hd hdn
        refine ⟨?_, ?_, ?_⟩
        · simpa [List.nodup_append] using ⟨hnd, hmem⟩
        · intro n hn
          rcases List.mem_append.1 hn with hn | hn
          · obtain ⟨d, hd, hdn⟩ := hsub n hn
            exact ⟨d, by simp [hd], hdn⟩
          · refine ⟨t, by simp, ?_⟩
            have hn' : n = t.name := by simpa using hn
            exact hn'.symm
        · intro n hn
          rcases List.mem_append.1 hn with hn | hn
          · exact hnp n hn
          · have hn' : n = t.name := by simpa using hn
            subst hn'
            rw [htn]
            exact Or.inr (by simpa using hp)

/-- The traversal preserves the walk-state invariant: whenever it
completes, the resulting state satisfies it. -/
theorem trav_inv (pkg : Pkg) (seedName : String) :
    ∀ (fuel : Nat) (task : Sum GoExpr (List GoField)) (st st' : WalkSt),
      WalkInv seedName st → trav pkg fuel task st = some st' →
        WalkInv seedName st' := by
  intro fuel
  induction fuel with
  | zero =>
    intro task st st' _ h
    simp [trav] at h
  | succ n ih =>
    intro task st st' hinv h
    match task with
    | .inl .chanOrFunc =>
      simp only [trav, Option.some.injEq] at h
      exact h ▸ hinv
    | .inl .otherExpr =>
      simp only [trav, Option.some.injEq] at h
      exact h ▸ hinv
    | .inl (.structT fields) =>
      simp only [trav] at h
      exact ih _ _ _ hinv h
    | .inl (.array elt) =>
      simp only [trav] at h
      exact ih _ _ _ hinv h
    | .inl (.mapT k v) =>
      simp only [trav] at h
      cases hk : trav pkg n (.inl k) st with
      | none => rw [hk] at h; exact absurd h (by simp)
      | some st1 =>
        rw [hk] at h
        exact ih _ _ _ (ih _ _ _ hinv hk) h
    | .inl (.ident name) =>
      simp only [trav] at h
      have hcb := walkCallback_inv pkg seedName name st hinv
      cases hstop : (walkCallback pkg name st).1 with
      | true =>
        rw [hstop] at h
        simp only [if_true, Option.some.injEq] at h
        exact h ▸ hcb
      | false =>
        rw [hstop] at h
        simp only [Bool.false_eq_true, if_false] at h
        cases hf : findType pkg.decls name with
        | none =>
          rw [hf] at h
          simp only [Option.some.injEq] at h
          exact h ▸ hcb
        | some x =>
          rw [hf] at h
          exact ih _ _ _ hcb h
    | .inr [] =>
      simp only [trav, Option.some.injEq] at h
      exact h ▸ hinv
    | .inr (f :: fs) =>
      simp only [trav] at h
      cases hft : trav pkg n (.inl f.2.1) st with
      | none => rw [hft] at h; exact absurd h (by simp)
      | some st1 =>
        rw [hft] at h
        exact ih _ _ _ (ih _ _ _ hinv hft) h

/-- The declaration `type int struct { X string }`, shadowing the
predeclared identifier `int` (legal Go: package-level declarations may
shadow universe-scope names, and valfile only parses). -/
def shadowDecl : TypeDecl := ⟨"int", .structT [(["X"], .ident "string", none)]⟩

/-- A package whose sole (root) type shadows the primitive name `int`. -/
def shadowPkg : Pkg := ⟨"main", [shadowDecl]⟩

/-- C8 counterexample: with the shadowing declaration `type int struct
{ X string }` as root, the closure walk completes and its
type-definition list contains the identifier `int` — a member of the
fixed primitive set — as an entry, because the walker's primitive filter
guards referenced identifiers only, never the seeded root. -/
theorem C8_counterexample_shadowed_primitive_root :
    runModel 9 shadowPkg "int" "json" true = some (.success ["int"]) ∧
    trav shadowPkg 9 (.inl shadowDecl.type) (seedState "int" shadowDecl) =
      some ⟨[shadowDecl], ["int"], []⟩ ∧
    isTypePrimitive "int" = true :=
  ⟨rfl, rfl, rfl⟩

/-- C8 amended: whenever the closure walk completes, the resulting
ordered type-definition list contains no entry twice, and every entry
other than (possibly) the requested root name itself is outside the
fixed primitive set — the primitive filter applies to referenced
identifiers only, so only a root whose name shadows a primitive can put
a primitive identifier into the list. -/
theorem C8_closure_nodup_no_primitives :
    ∀ (fuel : Nat) (pkg : Pkg) (tn : String) (root : TypeDecl) (st : WalkSt),
      findType pkg.decls tn = some root →
      trav pkg fuel (.inl root.type) (seedState tn root) = some st →
      st.typeDefinitions.Nodup ∧
        ∀ n ∈ st.typeDefinitions, n = tn ∨ isTypePrimitive n = false := by
  intro fuel pkg tn root st h2 h3
  have hroot : root.name = tn := by
    have hfs := List.find?_some h2
    simpa using hfs
  have hseed : WalkInv tn (seedState tn root) := by
    refine ⟨by simp [seedState], ?_, ?_⟩
    · intro n hn
      have hn' : n = tn := by simpa [seedState] using hn
      subst hn'
      exact ⟨root, by simp [seedState], hroot⟩
    · intro n hn
      have hn' : n = tn := by simpa [seedState] using hn
      exact Or.inl hn'
  have hres := trav_inv pkg tn fuel _ _ _ hseed h3
  exact ⟨hres.1, hres.2.2⟩

/-- C8 witness: on the one-struct package the walk completes with the
single entry `Config`, which is duplicate-free and is the root name
(and in fact non-primitive). -/
theorem C8_witness :
    (WalkSt.mk [simpleDecl] ["Config"] []).typeDefinitions.Nodup ∧
      ∀ n ∈ (WalkSt.mk [simpleDecl] ["Config"] []).typeDefinitions,
        n = "Config" ∨ isTypePrimitive n = false :=
  C8_closure_nodup_no_primitives 5 pkgSimple "Config" simpleDecl
    ⟨[simpleDecl], ["Config"], []⟩ rfl rfl

/-- Loop invariant of `unzipArchive`: if every already-written path lies
under the cleaned destination directory, then so does every path written
by the remainder of the loop — the guard runs before every write and an
offending entry aborts the loop. -/
theorem unzip_written_under_dst (dst : List Char) :
    ∀ (entries written : List (List Char)),
      (∀ p ∈ written, (goClean dst ++ ['/']).isPrefixOf p = true) →
      ∀ p ∈ (unzipArchiveModel dst entries written).1,
        (goClean dst ++ ['/']).isPrefixOf p = true := by
  intro entries
  induction entries with
  | nil =>
    intro written hw p hp
    simp only [unzipArchiveModel] at hp
    exact hw p (by simpa using hp)
  | cons name rest ih =>
    intro written hw p hp
    simp only [unzipArchiveModel] at hp
    by_cases hdir : name.getLast? = some '/'
    · rw [if_pos hdir] at hp
      exact ih written hw p hp
    · rw [if_neg hdir] at hp
      by_cases hg : (goClean dst ++ ['/']).isPrefixOf (goJoin dst name) = true
      · rw [if_pos hg] at hp
        refine ih _ ?_ p hp
        intro q hq
        rcases List.mem_cons.1 hq with hq | hq
        · exact hq ▸ hg
        · exact hw q hq
      · rw [if_neg hg] at hp
        exact hw p (by simpa using hp)

/-- C9: every path `unzipArchive` writes lies strictly under the cleaned
destination directory (ZipSlip guard), an entry whose name joined with
the destination resolves outside it is rejected with an "illegal file
path" error, and on concrete inputs a traversal entry (`../evil`) is
rejected after resolving to a path outside the destination while benign
entries (including ones with internal `..` that still resolve inside)
are written inside the destination. -/
theorem C9_traversal_guard :
    (∀ (dst : List Char) (entries : List (List Char)),
      ∀ p ∈ (unzipArchiveModel dst entries []).1,
        (goClean dst ++ ['/']).isPrefixOf p = true) ∧
    (∀ (dst name : List Char) (rest acc : List (List Char)),
      name.getLast? ≠ some '/' →
      (goClean dst ++ ['/']).isPrefixOf (goJoin dst name) = false →
      (unzipArchiveModel dst (name :: rest) acc).2 =
        some ("illegal file path: " ++ String.mk (goJoin dst name))) ∧
    unzipArchiveModel "/tmp/work".toList ["../evil".toList] [] =
      ([], some "illegal file path: /tmp/evil") ∧
    unzipArchiveModel "/tmp/work".toList
      ["a/../b.txt".toList, "sub/f.txt".toList, "dir/".toList] [] =
      (["/tmp/work/b.txt".toList, "/tmp/work/sub/f.txt".toList], none) ∧
    goJoin "/tmp/work".toList "../evil".toList = "/tmp/evil".toList := by
  refine ⟨?_, ?_, rfl, rfl, rfl⟩
  · intro dst entries
    exact unzip_written_under_dst dst entries [] (by simp)
  · intro dst name rest acc hdir hg
    simp only [unzipArchiveModel]
    rw [if_neg hdir, if_neg (by simp [hg])]

/-- C9 witness: the rejection clause applied to the traversal entry. -/
theorem C9_witness :
    (unzipArchiveModel "/tmp/work".toList ["../evil".toList] []).2 =
      some ("illegal file path: " ++
        String.mk (goJoin "/tmp/work".toList "../evil".toList)) :=
  C9_traversal_guard.2.1 "/tmp/work".toList "../evil".toList [] []
    (by decide) rfl

/-- A head surviving `dropWhile` falsifies the predicate. -/
theorem dropWhile_head_false {α : Type} (p : α → Bool) :
    ∀ (l : List α) (a : α), (l.dropWhile p).head? = some a → p a = false := by
  intro l
  induction l with
  | nil => intro a h; simp at h
  | cons x xs ih =>
    intro a h
    by_cases hx : p x = true
    · rw [List.dropWhile_cons, if_pos hx] at h
      exact ih a h
    · rw [List.dropWhile_cons, if_neg hx] at h
      have hax : a = x := by simpa using h.symm
      subst hax
      simpa using hx

/-- The newline-trimmed output never ends in a newline. -/
theorem trim_getLast_ne_newline (l : List Char) :
    (trimNewlinesRight l).getLast? ≠ some '\n' := by
  unfold trimNewlinesRight
  intro h
  rw [List.getLast?_reverse] at h
  have hf := dropWhile_head_false (fun c => c == '\n') l.reverse '\n' h
  simp at hf

/-- A last element of a dropped suffix is the last element of the whole
list. -/
theorem getLast?_of_drop {α : Type} (l : List α) (n : Nat) (a : α)
    (h : (l.drop n).getLast? = some a) : l.getLast? = some a := by
  obtain ⟨t, ht⟩ := List.drop_suffix n l
  have hne : l.drop n ≠ [] := by
    intro hnil
    rw [hnil] at h
    simp at h
  rw [← ht, List.getLast?_append_of_ne_nil t hne]
  exact h

/-- C10: `run` trims trailing newline bytes before the marker check, so
an output consisting only of newlines is classified as success; and a
structured validation error produced from a marked output never ends in
a newline character. -/
theorem C10_trim_before_marker_check :
    (∀ n : Nat, interpretRunOutput none (List.replicate n '\n') = .success) ∧
    (∀ (out msg : List Char),
      interpretRunOutput none out = .validationFailure msg →
      msg.getLast? ≠ some '\n') := by
  constructor
  · intro n
    have htrim : trimNewlinesRight (List.replicate n '\n') = [] := by
      unfold trimNewlinesRight
      rw [List.reverse_replicate]
      have hdw : List.dropWhile (fun c => c == '\n') (List.replicate n '\n') = [] := by
        induction n with
        | zero => rfl
        | succ m ih =>
          rw [List.replicate_succ, List.dropWhile_cons]
          simp [ih]
      rw [hdw]
      rfl
    simp [interpretRunOutput, htrim, errMarker]
  · intro out msg h
    simp only [interpretRunOutput] at h
    by_cases hp : errMarker.isPrefixOf (trimNewlinesRight out) = true
    · rw [if_pos hp] at h
      have hmsg : (trimNewlinesRight out).drop errMarker.length = msg := by
        simpa using h
      intro hlast
      rw [← hmsg] at hlast
      exact trim_getLast_ne_newline out
        (getLast?_of_drop (trimNewlinesRight out) errMarker.length '\n' hlast)
    · rw [if_neg hp] at h
      exact absurd h (by simp)

/-- C10 witness: the no-trailing-newline clause applied to the concrete
marked output `VALFILE: x` followed by a newline. -/
theorem C10_witness : ("x".toList).getLast? ≠ some '\n' :=
  C10_trim_before_marker_check.2 ("VALFILE: x\n".toList) ("x".toList) rfl

end Valfile
